import Mathlib

set_option maxRecDepth 4000

namespace Haku

/-! Shallow embedding of the haku task runner's core, translated from the
Rust sources (`src/var.rs`, `src/parse.rs`, `src/ops.rs`, `src/vm.rs`,
`src/func.rs`, `hakufile/src/feature.rs`).  Strings are modelled by Lean
`String` (UTF-8 code points; Rust's byte-wise ordering of UTF-8 strings
coincides with code-point order).  Machine integers (`i64`) are modelled by
`Int` with explicit range checks where the Rust code can fail (parsing). -/

/-- Rust `char::is_whitespace` restricted to the ASCII whitespace characters
that appear in the scripts under test. -/
def isRustWs (c : Char) : Bool :=
  c = ' ' || c = '\t' || c = '\n' || c = '\x0d' || c = '\x0b' || c = '\x0c'

/-- Byte-wise (equivalently code-point-wise) strict order on char lists,
modelling Rust's `str` `<`. -/
def charsLt : List Char → List Char → Bool
  | [], [] => false
  | [], _ :: _ => true
  | _ :: _, [] => false
  | a :: as, b :: bs =>
    if a.val < b.val then true
    else if b.val < a.val then false
    else charsLt as bs

/-- Rust `a < b` on strings. -/
def sLt (a b : String) : Bool := charsLt a.data b.data

/-- Rust `a > b` on strings. -/
def sGt (a b : String) : Bool := charsLt b.data a.data

/-- Rust `a <= b` on strings (total order, so `a <= b` iff `¬ (b < a)`). -/
def sLe (a b : String) : Bool := ! charsLt b.data a.data

/-- Rust `str::trim_end` (drop trailing whitespace). -/
def rustTrimEnd (s : String) : String :=
  ⟨(s.data.reverse.dropWhile isRustWs).reverse⟩

/-- Rust `str::trim` (drop leading and trailing whitespace). -/
def rustTrim (s : String) : String :=
  ⟨((s.data.dropWhile isRustWs).reverse.dropWhile isRustWs).reverse⟩

/-- Digits of a decimal number; `none` on empty input or a non-digit. -/
def parseDigits : List Char → Option Nat
  | [] => none
  | [c] => if c.isDigit then some (c.toNat - '0'.toNat) else none
  | c :: cs =>
    if c.isDigit then
      match parseDigits cs with
      | none => none
      | some n => some ((c.toNat - '0'.toNat) * 10 ^ cs.length + n)
    else none

/-- Rust `str::parse::<i64>()`: optional sign, decimal digits, failing on
empty input, stray characters and 64-bit overflow. -/
def rustParseI64 (s : String) : Option Int :=
  let body : List Char → Bool → Option Int := fun cs neg =>
    match parseDigits cs with
    | none => none
    | some n =>
      if neg then if (n : Int) ≤ 2 ^ 63 then some (-(n : Int)) else none
      else if (n : Int) ≤ 2 ^ 63 - 1 then some (n : Int) else none
  match s.data with
  | [] => none
  | '+' :: rest => body rest false
  | '-' :: rest => body rest true
  | cs => body cs false

/-- Split a char list at a separator character, keeping empty pieces. -/
def splitCharList (sep : Char) : List Char → List (List Char)
  | [] => [[]]
  | c :: cs =>
    if c = sep then [] :: splitCharList sep cs
    else
      match splitCharList sep cs with
      | [] => [[c]]
      | p :: ps => (c :: p) :: ps

/-- Drop one trailing `\x0d` (carriage return), as Rust `str::lines` does. -/
def dropTrailingCR (l : List Char) : List Char :=
  match l.reverse with
  | '\x0d' :: rest => rest.reverse
  | _ => l

/-- Rust `str::lines`: split on `\n`, drop the final empty piece produced by a
trailing newline, strip one trailing `\r` per line; no lines for `""`. -/
def rustLines (s : String) : List String :=
  if s.data = [] then []
  else
    let ps := splitCharList '\n' s.data
    let ps := if s.data.getLast? = some '\n' then ps.dropLast else ps
    ps.map (fun l => ⟨dropTrailingCR l⟩)

/-- Rust `str::split_whitespace`: split on whitespace, dropping empty pieces. -/
def splitWhitespace (s : String) : List String :=
  ((s.data.splitOnP isRustWs).filter (fun l => l ≠ [])).map (fun l => ⟨l⟩)

/-- Whether `pat` is a prefix of `l`. -/
def charsIsPrefix : List Char → List Char → Bool
  | [], _ => true
  | _ :: _, [] => false
  | p :: ps, c :: cs => p = c && charsIsPrefix ps cs

/-- Index of the first occurrence of the substring `pat` in `l`
(Rust `str::find` with a string pattern). -/
def findSub (pat : List Char) : List Char → Option Nat
  | [] => if pat = [] then some 0 else none
  | c :: cs =>
    if charsIsPrefix pat (c :: cs) then some 0
    else (findSub pat cs).map (· + 1)

/-- Rust `str::split` with a non-empty string pattern: non-overlapping
left-to-right matches, empty pieces kept.  `fuel` bounds the loop; it is
sufficient at `l.length + 1` because each step consumes the (non-empty)
pattern. -/
def splitOnSub (pat : List Char) : Nat → List Char → List (List Char)
  | 0, l => [l]
  | fuel + 1, l =>
    match findSub pat l with
    | none => [l]
    | some i => l.take i :: splitOnSub pat fuel (l.drop (i + pat.length))

/-- Rust `s.split(sep)` for strings, `sep` non-empty. -/
def rustSplitStr (s sep : String) : List String :=
  (splitOnSub sep.data (s.data.length + 1) s.data).map (fun l => ⟨l⟩)

/-- Index of the first occurrence of a character (Rust `str::find(char)`). -/
def findChar (c : Char) : List Char → Option Nat
  | [] => none
  | x :: xs => if x = c then some 0 else (findChar c xs).map (· + 1)

/-- `i64 as usize` (two's-complement wrap into `[0, 2^64)`). -/
def usizeOfI64 (i : Int) : Nat := (i % (2 : Int) ^ 64).toNat

/-- Two's-complement wraparound into the i64 range `[-2^63, 2^63)`: what a
release-mode Rust i64 addition such as `curr += step` produces when the
mathematical sum leaves the range (a debug build would panic instead). -/
def wrapI64 (x : Int) : Int := (x + 2 ^ 63) % 2 ^ 64 - 2 ^ 63

/-- The string-accumulating join loop used by `VarValue::to_string` and
`VarValue::to_flat_string`: the separator is inserted before an element
only when the accumulator is non-empty, so a leading run of empty elements
contributes no separators. -/
def rustJoin (sep : String) (v : List String) : String :=
  v.foldl (fun s it => (if s = "" then s else s ++ sep) ++ it) ""

/-- Rust `str::to_lowercase`, modelled character-wise (`Char.toLower` lowers
the ASCII range, which covers every name and feature value in play). -/
def strToLower (s : String) : String := ⟨s.data.map Char.toLower⟩

/-! ## Value model (`src/var.rs`) -/

/-- Result of execution of an external command with shell (`ExecResult`). -/
structure ExecResult where
  code : Int
  stdout : String
  deriving Repr, DecidableEq

/-- A list of strings (named so that it stays visible next to the `List`
constructor of `VarValue`). -/
abbrev StrList := List String

/-- Variable value (`VarValue`). -/
inductive VarValue where
  | Undefined : VarValue
  | Str : String → VarValue
  | Int : ℤ → VarValue
  | List : StrList → VarValue
  | Exec : ExecResult → VarValue
  deriving Repr, DecidableEq, Inhabited

namespace VarValue

/-- `VarValue::to_string` (multi-line projection).  The list join follows
the source's loop, which skips the `"\n"` separator while the accumulator
is still empty. -/
def toStr : VarValue → String
  | .Undefined => ""
  | .Str s => s
  | .Int i => toString i
  | .List v => rustJoin "\n" v
  | .Exec ex => if ex.code = 0 then ex.stdout else ""

/-- `VarValue::to_flat_string` (flat projection): lists joined with a space,
exec stdout's lines trimmed at the end and joined with a space — both with
the source's loop that skips the separator while the accumulator is
empty. -/
def to_flat_string : VarValue → String
  | .Undefined => ""
  | .Str s => s
  | .Int i => toString i
  | .List v => rustJoin " " v
  | .Exec ex =>
    if ex.code = 0 then rustJoin " " ((rustLines ex.stdout).map rustTrimEnd)
    else ""

/-- `VarValue::is_true` (truthiness). -/
def is_true : VarValue → Bool
  | .Undefined => false
  | .Int i => i ≠ 0
  | .Str s => s ≠ ""
  | .List v => v ≠ [] && v.headI ≠ ""
  | .Exec er => er.code = 0

/-- `VarValue::to_int` (integer coercion; `unwrap_or(0)` on parse failure). -/
def to_int : VarValue → ℤ
  | .Undefined => 0
  | .Int i => i
  | .Str s => if s = "" then 0 else (rustParseI64 s).getD 0
  | .List v =>
    if v = [] ∨ v.headI = "" then 0 else (rustParseI64 v.headI).getD 0
  | .Exec ex =>
    if ex.stdout = "" then 0
    else
      match rustLines ex.stdout with
      | [] => 0
      | l :: _ => (rustParseI64 (rustTrim l)).getD 0

/-- `VarValue::cmp_eq`. -/
def cmp_eq : VarValue → VarValue → Bool
  | .Undefined, val =>
    match val with
    | .Undefined => true
    | _ => false
  | .List lst1, val =>
    match val with
    | .List lst2 =>
      if lst1.length ≠ lst2.length then false
      else (lst1.zip lst2).all (fun p => p.1 = p.2)
    | .Exec ex_val => ex_val.code = 0 && rustTrim ex_val.stdout = toStr (.List lst1)
    | .Str s => to_flat_string (.List lst1) = s
    | .Int i => if lst1.length ≠ 1 then false else lst1.headI = toString i
    | _ => false
  | .Exec ex, val =>
    match val with
    | .Exec ex_val => ex.code = ex_val.code
    | .Str s => ex.stdout = s
    | .Int i => ex.code = i
    | .List l => ex.code = 0 && ex.stdout = toStr (.List l)
    | _ => false
  | .Str s, val =>
    match val with
    | .Exec ex_val => s = ex_val.stdout
    | .Str s_val => s = s_val
    | .Int i => s = toString i
    | .List l => s = to_flat_string (.List l)
    | _ => false
  | .Int i, val =>
    match val with
    | .Exec ex_val => i = ex_val.code
    | .Str s_val => toString i = s_val
    | .Int i_val => i = i_val
    | .List lst => if lst.length ≠ 1 then false else lst.headI = toString i
    | _ => false

/-- `VarValue::cmp_greater`. -/
def cmp_greater : VarValue → VarValue → Bool
  | .Undefined, _ => false
  | .Exec ex, val =>
    match val with
    | .Exec ex_val =>
      if ex.code = 0 ∧ ex_val.code ≠ 0 then true
      else if ex.code ≠ 0 ∧ ex_val.code = 0 then false
      else decide (ex_val.code < ex.code)
    | .Str s => sGt ex.stdout s
    | .Int i => decide (i < ex.code)
    | .List l => ex.code = 0 && sGt ex.stdout (toStr (.List l))
    | _ => true
  | .Str s, val =>
    match val with
    | .Exec ex_val => sGt s ex_val.stdout
    | .Str s_val => sGt s s_val
    | .Int i => sGt s (toString i)
    | .List l => sGt s (to_flat_string (.List l))
    | _ => true
  | .Int i, val =>
    match val with
    | .Exec ex_val => decide (ex_val.code < i)
    | .Str s_val => sGt (toString i) s_val
    | .Int i_val => decide (i_val < i)
    | .List lst =>
      if lst = [] then true
      else decide ((rustParseI64 lst.headI).getD 0 < i)
    | _ => true
  | .List lst, val =>
    match val with
    | .Exec ex => ex.code ≠ 0 || sGt (toStr (.List lst)) ex.stdout
    | .Str s => sGt (to_flat_string (.List lst)) s
    | .Int i =>
      if lst = [] then false
      else decide (i < (rustParseI64 lst.headI).getD 0)
    | .List lst2 =>
      if lst.length > lst2.length then true
      else (lst.zip lst2).all (fun p => sLt p.2 p.1)
    | _ => true

/-- `VarValue::cmp_less`.  NOTE: the Exec-vs-Exec arm repeats the
`cmp_greater` logic verbatim in the source (a successful Exec is "less" than
a failed one as well); the embedding keeps that behaviour. -/
def cmp_less : VarValue → VarValue → Bool
  | .Undefined, val =>
    match val with
    | .Undefined => false
    | _ => true
  | .Exec ex, val =>
    match val with
    | .Exec ex_val =>
      if ex.code = 0 ∧ ex_val.code ≠ 0 then true
      else if ex.code ≠ 0 ∧ ex_val.code = 0 then false
      else decide (ex_val.code < ex.code)
    | .Str s => sLt ex.stdout s
    | .Int i => decide (ex.code < i)
    | .List l => ex.code ≠ 0 || sLt ex.stdout (toStr (.List l))
    | _ => false
  | .Str s, val =>
    match val with
    | .Exec ex_val => sLt s ex_val.stdout
    | .Str s_val => sLt s s_val
    | .Int i => sLt s (toString i)
    | .List l => sLt s (to_flat_string (.List l))
    | _ => false
  | .Int i, val =>
    match val with
    | .Exec ex_val => decide (i < ex_val.code)
    | .Str s_val => sLt (toString i) s_val
    | .Int i_val => decide (i < i_val)
    | .List lst =>
      if lst = [] then false
      else decide (i < (rustParseI64 lst.headI).getD 0)
    | _ => false
  | .List lst, val =>
    match val with
    | .Exec ex => ex.code = 0 && sLt (toStr (.List lst)) ex.stdout
    | .Str s => sLt (to_flat_string (.List lst)) s
    | .Int i =>
      if lst = [] then false
      else decide ((rustParseI64 lst.headI).getD 0 < i)
    | .List lst2 =>
      if lst.length > lst2.length then false
      else (lst.zip lst2).all (fun p => sLt p.1 p.2)
    | _ => false

/-- `VarValue::cmp_neq`. -/
def cmp_neq (a b : VarValue) : Bool := ! cmp_eq a b

/-- `VarValue::cmp_eq_or_greater`. -/
def cmp_eq_or_greater (a b : VarValue) : Bool := ! cmp_less a b

/-- `VarValue::cmp_eq_or_less`. -/
def cmp_eq_or_less (a b : VarValue) : Bool := ! cmp_greater a b

/-- `VarValue::cmp`: dispatch on the comparison operator.  The Rust function
panics (`unreachable!`) on any other operator; that case is modelled as
`none`. -/
def cmp (a b : VarValue) (cmp_op : String) : Option Bool :=
  match cmp_op with
  | "==" => some (cmp_eq a b)
  | "!=" => some (cmp_neq a b)
  | ">" => some (cmp_greater a b)
  | "<" => some (cmp_less a b)
  | ">=" => some (cmp_eq_or_greater a b)
  | "<=" => some (cmp_eq_or_less a b)
  | _ => none

end VarValue

/-! ## Feature evaluator (`hakufile/src/feature.rs`) -/

/-- The compile-time platform constants supplied by the `target` crate
(`os()`, `pointer_width()`, `os_family()`, `arch()`, `endian()`); they are
parameters of the evaluation. -/
structure Platform where
  os : String
  bit : String
  family : String
  arch : String
  endian : String

/-- One parsed feature predicate: an optional negation (`not_op`), the
predicate kind name (`feature_name`), and the listed values
(`feature_val`'s inner pairs). -/
structure FeatPred where
  neg : Bool
  name : String
  vals : List String

/-- `check_feature_val`: the predicate holds when any listed value, lowered,
equals `val`; `neg` inverts the result. -/
def check_feature_val (val : String) (p : List String) (neg : Bool) : Bool :=
  let found := p.any (fun fv => val = strToLower fv)
  if neg then ! found else found

/-- `check_feature_list`: an empty user-feature list returns `false` at once
(before `neg` is applied); otherwise the predicate holds when any listed
value matches any user feature case-insensitively, and `neg` inverts it. -/
def check_feature_list (vals : List String) (p : List String) (neg : Bool) : Bool :=
  if vals = [] then false
  else
    let found := p.any (fun fv => vals.any (fun v => strToLower v = strToLower fv))
    if neg then ! found else found

/-- The evaluation of a single predicate inside `process_feature`'s inner
loop: dispatch on the lowered kind name; an unknown kind is an error
carrying the (lowered) name. -/
def evalFeatPred (plat : Platform) (feats : List String) (p : FeatPred) :
    Except String Bool :=
  match strToLower p.name with
  | "os" => .ok (check_feature_val plat.os p.vals p.neg)
  | "bit" => .ok (check_feature_val plat.bit p.vals p.neg)
  | "family" => .ok (check_feature_val plat.family p.vals p.neg)
  | "arch" => .ok (check_feature_val plat.arch p.vals p.neg)
  | "endian" => .ok (check_feature_val plat.endian p.vals p.neg)
  | "feature" => .ok (check_feature_list feats p.vals p.neg)
  | "feat" => .ok (check_feature_list feats p.vals p.neg)
  | _ => .error (strToLower p.name)

/-- The accumulator loop of `process_feature`: `ok &= pass`, returning
`Ok(ok)` as soon as `ok` turns false. -/
def process_feature_go (plat : Platform) (feats : List String) (ok : Bool) :
    List FeatPred → Except String Bool
  | [] => .ok ok
  | p :: ps =>
    match evalFeatPred plat feats p with
    | .error e => .error e
    | .ok pass =>
      let ok2 := ok && pass
      if ok2 then process_feature_go plat feats ok2 ps else .ok ok2

/-- `process_feature`: left-to-right conjunction of the guard's predicates. -/
def process_feature (plat : Platform) (feats : List String)
    (preds : List FeatPred) : Except String Bool :=
  process_feature_go plat feats true preds

/-! ## Operation model and dead-code elimination (`src/ops.rs`, `src/parse.rs`) -/

/-- `Seq`: the source of a `for` loop. -/
inductive Seq where
  | SInt : ℤ → ℤ → ℤ → Seq
  | SStr : String → Seq
  | Idents : StrList → Seq
  | SExec : String → Seq
  | SVar : String → Seq
  deriving Repr, DecidableEq

/-- `Op`: operations processed by the engine (payloads of expression
sub-operations kept recursively).  Constructor names follow `src/ops.rs`;
`OInt`/`OStr`/`OVar`/`OExec` are the leaf expression values. -/
inductive Op where
  | Comment : String → Op
  | DocComment : String → Op
  | Include : Nat → String → Op
  | Error : String → Op
  | Feature : Bool → String → Op
  | Func : String → List Op → Op
  | StmtClose : Op
  | Assign : String → List Op → Op
  | DefAssign : String → List Op → Op
  | EitherAssign : Bool → String → List Op → Op
  | Compare : String → List Op → Op
  | If : List Op → Op
  | ElseIf : List Op → Op
  | AndExpr : List Op → Op
  | Else : Op
  | Break : Op
  | Continue : Op
  | Return : Op
  | While : List Op → Op
  | For : String → Seq → Op
  | Recipe : String → Nat → StrList → StrList → Op
  | Shell : Nat → String → Op
  | OInt : ℤ → Op
  | OStr : String → Op
  | OVar : String → Op
  | OExec : String → Op
  | Not : List Op → Op
  | Cd : Nat → String → Op
  | Pause : Op
  deriving Repr

/-- `OpItem`: an operation together with its script line. -/
structure OpItem where
  op : Op
  line : Nat
  deriving Repr

/-- `Skip`: what the dead-code pass is currently skipping. -/
inductive Skip where
  | None : Skip
  | Command : Skip
  | Recipe : Skip
  deriving Repr, DecidableEq

/-- `DeadState`: the two pending buffers of the dead-code pass. -/
structure DeadState where
  pass : Bool
  desc : String
  fstr : String
  f_list : List OpItem
  next_pass : Bool
  next_desc : String
  next_fstr : String
  next_f_list : List OpItem
  deriving Repr

/-- `DeadState::new` (also the state produced by `reset`). -/
def DeadState.new : DeadState :=
  ⟨true, "", "", [], true, "", "", []⟩

/-- Disabled recipe descriptor (`DisabledRecipe`). -/
structure DisabledRecipe where
  name : String
  desc : String
  feat : String
  line : Nat
  deriving Repr

/-- The whole mutable state of `remove_dead_code`'s loop. -/
structure RdcState where
  skip : Skip
  ds : DeadState
  op_list : List OpItem
  nesting : ℤ
  disabled : List DisabledRecipe
  deriving Repr

/-- One iteration of the `remove_dead_code` loop over the op stream. -/
def rdcStep (st : RdcState) (o : OpItem) : RdcState :=
  match o.op with
  | .Comment _ => st
  | .DocComment s =>
    if st.skip = .Recipe then
      { st with ds := { st.ds with next_desc := s, next_f_list := st.ds.next_f_list ++ [o] } }
    else
      { st with ds := { st.ds with desc := s, f_list := st.ds.f_list ++ [o] } }
  | .Feature b s =>
    if st.skip = .Recipe then
      { st with ds := { st.ds with
          next_pass := st.ds.next_pass && b,
          next_f_list := st.ds.next_f_list ++ [o],
          next_fstr := st.ds.next_fstr ++ s } }
    else
      { st with ds := { st.ds with
          pass := st.ds.pass && b,
          f_list := st.ds.f_list ++ [o],
          fstr := st.ds.fstr ++ s } }
  | .Recipe name _ _ _ =>
    if st.skip = .Recipe ∧ st.ds.next_pass = false then
      { st with
        disabled := st.disabled ++
          [⟨name, st.ds.next_desc, st.ds.next_fstr, o.line⟩],
        ds := DeadState.new }
    else if st.skip ≠ .None ∨ st.ds.pass then
      { st with
        skip := .None,
        op_list := st.op_list ++ st.ds.f_list ++
          (if st.ds.next_desc ≠ "" then [⟨.DocComment st.ds.next_desc, o.line⟩] else []) ++
          [o],
        ds := DeadState.new }
    else
      { st with
        disabled := st.disabled ++ [⟨name, st.ds.desc, st.ds.fstr, o.line⟩],
        skip := .Recipe,
        ds := DeadState.new }
  | .If _ =>
    rdcOpenStep st o
  | .While _ =>
    rdcOpenStep st o
  | .For _ _ =>
    rdcOpenStep st o
  | .StmtClose =>
    if st.skip = .None then
      if st.ds.pass then { st with op_list := st.op_list ++ [o], ds := DeadState.new }
      else { st with ds := DeadState.new }
    else if st.skip = .Command then
      let n := st.nesting - 1
      if n = 0 then { st with skip := .None, nesting := n, ds := DeadState.new }
      else { st with nesting := n, ds := DeadState.new }
    else { st with ds := DeadState.new }
  | _ =>
    if st.skip = .None ∧ st.ds.pass then
      { st with op_list := st.op_list ++ [o], ds := DeadState.new }
    else { st with ds := DeadState.new }
where
  /-- The shared `Op::If | Op::While | Op::For` branch. -/
  rdcOpenStep (st : RdcState) (o : OpItem) : RdcState :=
    if st.skip ≠ .None then
      { st with nesting := st.nesting + 1, ds := DeadState.new }
    else if st.ds.pass then
      { st with op_list := st.op_list ++ [o], ds := DeadState.new }
    else
      { st with skip := .Command, nesting := 1, ds := DeadState.new }

/-- `HakuFile::remove_dead_code`: fold the pass over the parsed op stream and
return the retained stream. -/
def remove_dead_code (ops : List OpItem) : List OpItem :=
  (ops.foldl rdcStep ⟨.None, DeadState.new, [], 0, []⟩).op_list

/-- Whether an op opens a block (`If`, `While` or `For`). -/
def Op.isOpener : Op → Bool
  | .If _ => true
  | .While _ => true
  | .For _ _ => true
  | _ => false

/-- Whether an op is `StmtClose`. -/
def Op.isClose : Op → Bool
  | .StmtClose => true
  | _ => false

/-- Number of block openers in an op stream. -/
def countOpeners (l : List OpItem) : Nat := l.countP (fun o => o.op.isOpener)

/-- Number of `StmtClose` ops in an op stream. -/
def countClosers (l : List OpItem) : Nat := l.countP (fun o => o.op.isClose)

/-- Whether an op is a `Feature` guard. -/
def Op.isFeatureOp : Op → Bool
  | .Feature _ _ => true
  | _ => false

/-- Whether an op is a `Recipe` header. -/
def Op.isRecipeOp : Op → Bool
  | .Recipe _ _ _ _ => true
  | _ => false

/-! ## Errors (`src/errors.rs`, the constructors the claims touch; the
location-display strings that Rust attaches via `error_extra` are engine
presentation data and are omitted from the payloads). -/

inductive HakuError where
  | SeqIntError : String → String → HakuError
  | SeqError : ℤ → ℤ → ℤ → HakuError
  | ForeverForError : HakuError
  | ExecFailureError : String → String → HakuError
  | RecipeRecursionError : String → HakuError
  | RecipeNotFoundError : String → HakuError
  | FuelExhausted : HakuError
  deriving Repr, DecidableEq

/-! ## `for` sequences (`src/ops.rs` `build_seq`, `src/vm.rs` `exec_for` /
`exec_end`) -/

/-- The `Rule::int_seq` arm of `build_seq`: the three integer literals as
parsed text (`step` defaults to `"1"` when the script has no second `..`).
Rejects unparsable numbers, a zero step, and a step whose sign contradicts
the direction of the range. -/
def build_seq_int (start_s end_s step_s : String) : Except HakuError Seq :=
  match rustParseI64 start_s with
  | none => .error (.SeqIntError "start" start_s)
  | some istart =>
    match rustParseI64 end_s with
    | none => .error (.SeqIntError "end" end_s)
    | some iend =>
      match rustParseI64 step_s with
      | none => .error (.SeqIntError "step" end_s)
      | some istep =>
        if istep = 0 ∨ (istep > 0 ∧ istart > iend) ∨ (istep < 0 ∧ istart < iend) then
          .error (.SeqError istart iend istep)
        else .ok (.SInt istart iend istep)

/-- Outcome of `exec_for` on a `Seq::Int`: skip the body, raise the
forever-for error, or bind the loop variable to `start` and push a
`ForInt` frame. -/
inductive ForIntStart where
  | skip : ForIntStart
  | forever : ForIntStart
  | enter : ℤ → ℤ → ℤ → ℤ → ForIntStart
  deriving Repr, DecidableEq

/-- The `Seq::Int` arm of `exec_for`: the empty-range test runs first, the
zero-step test second, otherwise the variable is bound to `start` and frame
`ForInt(var, start, end, step)` is pushed (`enter bound curr fin step`). -/
def exec_for_int (start fin step : ℤ) : ForIntStart :=
  if (step > 0 ∧ fin ≤ start) ∨ (step < 0 ∧ fin ≥ start) then .skip
  else if step = 0 then .forever
  else .enter start start fin step

/-- The `Condition::ForInt` arm of `exec_end`: advance the counter with the
i64 addition `curr += step` (release-mode wraparound on overflow, modelled
by `wrapI64`); `none` means the loop terminates, `some c` means the
variable is rebound to `c` and control returns to the line after the
opener. -/
def exec_end_for_int (curr fin step : ℤ) : Option ℤ :=
  let c := wrapI64 (curr + step)
  if (step > 0 ∧ c ≥ fin) ∨ (step < 0 ∧ c ≤ fin) then none else some c

/-- The values successively taken by the loop variable after the first
binding, driven by `exec_end_for_int`; `fuel` bounds the iteration count. -/
def forIntTail : Nat → ℤ → ℤ → ℤ → List ℤ
  | 0, _, _, _ => []
  | fuel + 1, curr, fin, step =>
    match exec_end_for_int curr fin step with
    | none => []
    | some c => c :: forIntTail fuel c fin step

/-- All values the body of an integer `for` sees, as driven by
`exec_for_int` and `exec_end_for_int`. -/
def forIntValues (fuel : Nat) (start fin step : ℤ) : List ℤ :=
  match exec_for_int start fin step with
  | .enter bound curr f st => bound :: forIntTail fuel curr f st
  | _ => []

/-! ## Built-in functions (`src/func.rs`: `fields`, `fields_with_sep` and the
`run_func` arms that dispatch to them) -/

/-- Result type of a built-in function. -/
abbrev FuncResult := Except String VarValue

/-- `fields`: split the first argument on whitespace and project the fields
selected by the remaining arguments (out-of-range indices give `""`;
exactly one index returns a scalar `Str`). -/
def fields (args : List VarValue) : FuncResult :=
  if args.length < 2 then .error "requires at least two arguments"
  else
    let s := (args.headI).toStr
    let flds := splitWhitespace s
    let vals := (args.drop 1).map (fun a =>
      let idx := usizeOfI64 a.to_int
      if idx ≥ flds.length then "" else flds.getD idx "")
    if args.length = 2 then .ok (.Str (vals.getLastD ""))
    else .ok (.List vals)

/-- `fields_with_sep`: like `fields` with an explicit separator (the second
argument), which must be non-empty. -/
def fields_with_sep (args : List VarValue) : FuncResult :=
  if args.length < 3 then .error "requires at least three arguments"
  else
    let s := (args.headI).toStr
    let sep := (args.getD 1 .Undefined).toStr
    if sep = "" then .error "separator cannot be emtpy"
    else
      let flds := rustSplitStr s sep
      let vals := (args.drop 2).map (fun a =>
        let idx := usizeOfI64 a.to_int
        if idx ≥ flds.length then "" else flds.getD idx "")
      if args.length = 3 then .ok (.Str (vals.getLastD ""))
      else .ok (.List vals)

/-- The pure fragment of `run_func`'s name dispatch: the lowered name is
matched; `"field" | "fields"` runs `fields`, the four `field_sep` spellings
run `fields_with_sep`.  All other arms reach the filesystem, the clock or
the engine and are outside this model (`none`). -/
def run_func_pure (name : String) (args : List VarValue) : Option FuncResult :=
  match strToLower name with
  | "field" => some (fields args)
  | "fields" => some (fields args)
  | "field-sep" => some (fields_with_sep args)
  | "fields-sep" => some (fields_with_sep args)
  | "field_sep" => some (fields_with_sep args)
  | "fields_sep" => some (fields_with_sep args)
  | _ => none

/-! ## Recipe dependency resolution (`src/vm.rs` `find_recipe` /
`push_recipe`).  A recipe is identified by its name; `find_recipe` scans the
engine's recipe list for the first matching entry and `push_recipe` is
called only on locations produced by `find_recipe`, so the embedding keys
the DFS on names.  The bound `fuel` guards the recursion; the Rust
recursion terminates because the ancestor chain rejects revisits. -/

/-- The data of one recipe the DFS consumes: `Op::Recipe`'s payload. -/
structure RecipeDecl where
  name : String
  flags : Nat
  vars : StrList
  deps : StrList
  deriving Repr, DecidableEq

/-- An entry of the execution list built by `push_recipe` (`RecipeItem`;
location data dropped, it is display-only here). -/
structure RecipeItem where
  name : String
  vars : StrList
  flags : Nat
  deriving Repr, DecidableEq

/-- `Engine::find_recipe`: first recipe with the given name, or
`RecipeNotFoundError`. -/
def find_recipe (rs : List RecipeDecl) (name : String) :
    Except HakuError RecipeDecl :=
  match rs.find? (fun r => r.name = name) with
  | some r => .ok r
  | none => .error (.RecipeNotFoundError name)

/-- The slice behind `push_recipe`'s `Option` arguments (`None` behaves as
an empty slice for the membership checks, and `parents` starts empty). -/
def parentList : Option (List String) → List String
  | none => []
  | some p => p

/-- The `for dep in deps` loop inside `push_recipe`: `vc` and `parents` are
the loop-local accumulators, while the cycle checks consult the original
`parent` and `found` arguments.  `pr` is the recursive `push_recipe` call
(one fuel step down). -/
def push_deps
    (pr : RecipeDecl → Option (List RecipeItem) → Option (List String) →
      Except HakuError (List RecipeItem))
    (rs : List RecipeDecl) (rcp : RecipeDecl)
    (found : Option (List RecipeItem)) (parent : Option (List String)) :
    List String → List RecipeItem → List String →
    Except HakuError (List RecipeItem)
  | [], vc, _ => .ok vc
  | d :: ds, vc, parents =>
    if (match parent with | some ps => ps.any (fun p => p = d) | none => false) then
      .error (.RecipeRecursionError d)
    else if (match found with | some f => f.any (fun s => s.name = d) | none => false) then
      .error (.RecipeRecursionError d)
    else
      match find_recipe rs d with
      | .error e => .error e
      | .ok next =>
        let parents2 := parents ++ [rcp.name]
        match pr next (some vc) (some parents2) with
        | .error e => .error e
        | .ok slist => push_deps pr rs rcp found parent ds (vc ++ slist) parents2

/-- `Engine::push_recipe`.  `found` and `parent` model the two `Option`
slice arguments.  The first guard keeps Rust's (vacuous) scan of the
freshly created empty `vc` alongside the direct self-dependency check.
`fuel` bounds the recursion depth; the Rust recursion terminates because
the ancestor chain rejects revisits, so any fuel above the recipe count is
sufficient. -/
def push_recipe (rs : List RecipeDecl) :
    Nat → RecipeDecl → Option (List RecipeItem) → Option (List String) →
    Except HakuError (List RecipeItem)
  | 0, _, _, _ => .error .FuelExhausted
  | fuel + 1, rcp, found, parent =>
    if ([] : List RecipeItem).any (fun s => s.name = rcp.name) ||
        rcp.deps.any (fun d => d = rcp.name) then
      .error (.RecipeRecursionError rcp.name)
    else
      match push_deps (push_recipe rs fuel) rs rcp found parent rcp.deps []
          (parentList parent) with
      | .error e => .error e
      | .ok vc => .ok (vc ++ [⟨rcp.name, rcp.vars, rcp.flags⟩])

/-- One-step dependency relation of the recipe graph: `b` is a declared
dependency of the first recipe named `a`. -/
def depStep (rs : List RecipeDecl) (a b : String) : Prop :=
  ∃ r, find_recipe rs a = .ok r ∧ b ∈ r.deps

/-- `a` depends on `x` directly or transitively (dependency paths of length
at least one). -/
inductive Reaches (rs : List RecipeDecl) : String → String → Prop where
  | single {a b : String} : depStep rs a b → Reaches rs a b
  | head {a b c : String} : depStep rs a b → Reaches rs b c → Reaches rs a c

/-! ## Backtick command execution (`src/vm.rs` `exec_cmd` and the
`Op::Exec` arm of `exec_op`).  The interaction with the operating system is
a parameter: either the spawn fails, or the child exits with a status and
output bytes (decoded stdout is `none` when it is not valid UTF-8). -/

/-- What the operating system did for one spawned command. -/
inductive SpawnOutcome where
  | spawnErr : String → SpawnOutcome
  | exited : Bool → Option String → SpawnOutcome
  deriving Repr

/-- `Engine::exec_cmd` given the interpolated command line and the OS
outcome: spawn failure and unsuccessful exit become `ExecFailureError`;
success yields code 0 and the end-trimmed stdout (or the non-UTF-8
placeholder). -/
def exec_cmd (cmdline : String) (out : SpawnOutcome) :
    Except HakuError ExecResult :=
  match out with
  | .spawnErr e => .error (.ExecFailureError cmdline e)
  | .exited ok stdout =>
    if !ok then .error (.ExecFailureError cmdline "exit code")
    else
      .ok { code := 0,
            stdout := match stdout with
              | some s => rustTrimEnd s
              | none => "[Non-UTF-8 Output]" }

/-- The `Op::Exec` arm of `Engine::exec_op`: an `exec_cmd` error becomes
`VarValue::Undefined`, success wraps the result in `VarValue::Exec`. -/
def exec_op_exec (cmdline : String) (out : SpawnOutcome) : VarValue :=
  match exec_cmd cmdline out with
  | .error _ => .Undefined
  | .ok er => .Exec er

/-! ## String interpolation (`src/var.rs` `VarMgr::interpolate`).  Variable
lookup (`VarMgr::var`, a three-tier search ending at the OS environment) is
abstracted into the function `env`. -/

/-- The escape table of `interpolate`, in source order. -/
def escapes : List (List Char × List Char) :=
  [ (['\\', '\\'], ['\\']),
    (['\\', 'n'], ['\n']),
    (['\\', 't'], ['\t']),
    (['\\', '$'], ['$']),
    (['\\', '\''], ['\'']),
    (['\\', '"'], ['"']) ]

/-- First escape of the table matching a prefix of `l`. -/
def findEscape (l : List Char) : Option (List Char × List Char) :=
  escapes.find? (fun e => charsIsPrefix e.1 l)

/-- The `while !s_ptr.is_empty()` loop of `interpolate`; `res` is the
accumulated output.  `fuel` bounds the loop and suffices at
`s_ptr.length + 1` since every continuing branch consumes input. -/
def interpolateGo (env : String → VarValue) (flat : Bool) :
    Nat → List Char → List Char → List Char
  | 0, res, sptr => res ++ sptr
  | fuel + 1, res, sptr =>
    if sptr = [] then res
    else
      match findChar '$' sptr, findChar '\\' sptr with
      | none, none => res ++ sptr
      | sd, ss =>
        if ss = none ∨ (sd ≠ none ∧ sd.getD 0 < ss.getD 0) then
          let d := sd.getD 0
          let res := res ++ sptr.take d
          let sptr := sptr.drop d
          if charsIsPrefix ['$', '$'] sptr then
            interpolateGo env flat fuel (res ++ ['$']) (sptr.drop 2)
          else if ! charsIsPrefix ['$', '{'] sptr then
            interpolateGo env flat fuel (res ++ ['$']) (sptr.drop 1)
          else
            let sptr := sptr.drop 2
            match findChar '}' sptr with
            | none => res ++ ['$', '{'] ++ sptr
            | some bp =>
              let var_name : String := ⟨sptr.take bp⟩
              let v := if flat then (env var_name).to_flat_string
                       else (env var_name).toStr
              interpolateGo env flat fuel (res ++ v.data) (sptr.drop (bp + 1))
        else
          let s := ss.getD 0
          let res := res ++ sptr.take s
          let sptr := sptr.drop s
          match findEscape sptr with
          | some esc =>
            interpolateGo env flat fuel (res ++ esc.2) (sptr.drop esc.1.length)
          | none =>
            interpolateGo env flat fuel (res ++ ['\\']) (sptr.drop 1)

/-- `VarMgr::interpolate` with the variable lookup abstracted as `env`. -/
def interpolate (env : String → VarValue) (in_str : String) (flat : Bool) :
    String :=
  ⟨interpolateGo env flat (in_str.data.length + 1) [] in_str.data⟩

/-- A concrete platform used to instantiate platform-dependent theorems. -/
def testPlatform : Platform :=
  ⟨"linux", "64", "unix", "x86_64", "little"⟩

/-! # Theorems about the claims -/

/-- C1 counterexample: two Exec values with equal exit codes do **not**
compare by their stdout.  `Exec(0, "b") > Exec(0, "a")` evaluates to false
even though `"b"` is the strictly larger stdout, because the Exec-vs-Exec
arm of `cmp_greater` only ever compares exit codes. -/
theorem claim_C1_counterexample :
    VarValue.cmp (.Exec ⟨0, "b"⟩) (.Exec ⟨0, "a"⟩) ">" = some false ∧
    sGt "b" "a" = true := by
  constructor
  · rfl
  · decide

/-- C1 (amended): for Exec-vs-Exec under `VarValue::cmp`, a successful Exec
(code 0) is greater than a failed one under `>` — and, `cmp_less` repeating
the `cmp_greater` logic, it is simultaneously "less" under `<`; two Execs
whose codes are both nonzero compare by exit code under both operators; and
two Execs with equal exit codes are neither greater nor less, their stdout
being ignored. -/
theorem claim_C1 (a b : ExecResult) :
    (a.code = 0 → b.code ≠ 0 →
      VarValue.cmp (.Exec a) (.Exec b) ">" = some true ∧
      VarValue.cmp (.Exec a) (.Exec b) "<" = some true) ∧
    (a.code = b.code →
      VarValue.cmp (.Exec a) (.Exec b) ">" = some false ∧
      VarValue.cmp (.Exec a) (.Exec b) "<" = some false) ∧
    (a.code ≠ 0 → b.code ≠ 0 →
      VarValue.cmp (.Exec a) (.Exec b) ">" = some (decide (b.code < a.code)) ∧
      VarValue.cmp (.Exec a) (.Exec b) "<" = some (decide (b.code < a.code))) := by
  simp only [VarValue.cmp, VarValue.cmp_greater, VarValue.cmp_less]
  refine ⟨fun h1 h2 => ?_, fun h => ?_, fun h1 h2 => ?_⟩ <;>
    split_ifs <;> simp_all

/-- C1 witness: `Exec(0,·) > Exec(1,·)` is true; `Exec(2,"x") > Exec(2,"y")`
is false. -/
theorem claim_C1_witness :
    VarValue.cmp (.Exec ⟨0, ""⟩) (.Exec ⟨1, ""⟩) ">" = some true ∧
    VarValue.cmp (.Exec ⟨2, "x"⟩) (.Exec ⟨2, "y"⟩) ">" = some false :=
  ⟨((claim_C1 ⟨0, ""⟩ ⟨1, ""⟩).1 rfl (by decide)).1,
   ((claim_C1 ⟨2, "x"⟩ ⟨2, "y"⟩).2.1 rfl).1⟩

/-- C4: under `VarValue::cmp`, `==` involving `Undefined` (on either side)
holds exactly when both operands are `Undefined`, and for any non-Undefined
`v` the comparison of `Undefined` against `v` yields true under `<` and
false under `>`. -/
theorem claim_C4 (v : VarValue) :
    (VarValue.cmp .Undefined v "==" = some true ↔ v = .Undefined) ∧
    (VarValue.cmp v .Undefined "==" = some true ↔ v = .Undefined) ∧
    (v ≠ .Undefined →
      VarValue.cmp .Undefined v "<" = some true ∧
      VarValue.cmp .Undefined v ">" = some false) := by
  cases v <;>
    simp [VarValue.cmp, VarValue.cmp_eq, VarValue.cmp_less, VarValue.cmp_greater]

/-- C4 witness at `v = Int 3`. -/
theorem claim_C4_witness :
    VarValue.cmp .Undefined (.Int 3) "<" = some true ∧
    VarValue.cmp .Undefined (.Int 3) ">" = some false :=
  (claim_C4 (.Int 3)).2.2 (by decide)

/-- The i64 wraparound is the identity on sums that stay inside the i64
range. -/
theorem wrapI64_eq_self {x : ℤ} (h1 : -(2 ^ 63) ≤ x) (h2 : x < 2 ^ 63) :
    wrapI64 x = x := by
  unfold wrapI64
  rw [Int.emod_eq_of_lt (by omega) (by omega)]
  omega

/-- C5 counterexample: the script line
`for i in 2..9223372036854775807..9223372036854775806` parses (all three
literals fit in i64) and enters the loop bound to 2, and at its first
`StmtClose` the claim's termination condition holds for advancement by
`step` (2 + (2^63 - 2) = 2^63 ≥ end), yet the program's i64 addition wraps
the counter to -2^63 and the loop continues with the variable rebound
there instead of terminating. -/
theorem claim_C5_counterexample :
    build_seq_int "2" "9223372036854775807" "9223372036854775806"
      = .ok (.SInt 2 9223372036854775807 9223372036854775806) ∧
    exec_for_int 2 9223372036854775807 9223372036854775806
      = .enter 2 2 9223372036854775807 9223372036854775806 ∧
    ((9223372036854775806 : ℤ) > 0 ∧
      (2 : ℤ) + 9223372036854775806 ≥ 9223372036854775807) ∧
    exec_end_for_int 2 9223372036854775807 9223372036854775806
      = some (-9223372036854775808) := by
  refine ⟨rfl, rfl, by norm_num, ?_⟩
  rfl

/-- C5 (amended): for a `for` over `Seq::Int(start, end, step)` with
`step ≠ 0`: an empty range (step positive with `end ≤ start`, or negative
with `end ≥ start`) skips the body — in particular `5..5` does, its value
trace being empty; otherwise the loop variable is bound to `start`.  At
each `StmtClose` the counter advances with the wrapping 64-bit addition
that release-mode Rust's `curr += step` performs, and the loop terminates
exactly when the wrapped counter has passed `end` in the direction of
`step`, rebinding the variable to the wrapped counter otherwise; whenever
the sum stays inside the i64 range this is exactly advancement by `step`
with the claim's termination test. -/
theorem claim_C5 (start fin step : ℤ) (hstep : step ≠ 0) :
    (((step > 0 ∧ fin ≤ start) ∨ (step < 0 ∧ fin ≥ start)) →
      exec_for_int start fin step = .skip) ∧
    (¬((step > 0 ∧ fin ≤ start) ∨ (step < 0 ∧ fin ≥ start)) →
      exec_for_int start fin step = .enter start start fin step) ∧
    (∀ curr : ℤ,
      (exec_end_for_int curr fin step = none ↔
        ((step > 0 ∧ wrapI64 (curr + step) ≥ fin) ∨
          (step < 0 ∧ wrapI64 (curr + step) ≤ fin))) ∧
      (¬((step > 0 ∧ wrapI64 (curr + step) ≥ fin) ∨
          (step < 0 ∧ wrapI64 (curr + step) ≤ fin)) →
        exec_end_for_int curr fin step = some (wrapI64 (curr + step)))) ∧
    (∀ curr : ℤ, -(2 ^ 63) ≤ curr + step → curr + step < 2 ^ 63 →
      exec_end_for_int curr fin step =
        if (step > 0 ∧ curr + step ≥ fin) ∨ (step < 0 ∧ curr + step ≤ fin)
        then none else some (curr + step)) ∧
    (exec_for_int 5 5 1 = .skip ∧ forIntValues 100 5 5 1 = []) := by
  refine ⟨fun h => ?_, fun h => ?_, fun curr => ⟨?_, fun h => ?_⟩,
    fun curr hlo hhi => ?_, by decide, by decide⟩
  · simp only [exec_for_int, if_pos h]
  · simp only [exec_for_int, if_neg h, if_neg hstep]
  · simp only [exec_end_for_int]
    split_ifs with hc
    · simp only [true_iff]
      exact hc
    · simp only [false_iff]
      exact hc
  · simp only [exec_end_for_int, if_neg h]
  · simp only [exec_end_for_int, wrapI64_eq_self hlo hhi]

/-- C5 witness: `for i in 1..5..2` enters the loop bound to 1; advancing
from 3 terminates (3+2 ≥ 5); advancing from 1 rebinds to 3. -/
theorem claim_C5_witness :
    exec_for_int 1 5 2 = .enter 1 1 5 2 ∧
    exec_end_for_int 3 5 2 = none ∧
    exec_end_for_int 1 5 2 = some 3 := by
  refine ⟨(claim_C5 1 5 2 (by decide)).2.1 (by decide),
          ((claim_C5 1 5 2 (by decide)).2.2.1 3).1.mpr (by decide),
          ?_⟩
  have h := (claim_C5 1 5 2 (by decide)).2.2.2.1 1 (by decide) (by decide)
  rw [if_neg (by decide)] at h
  exact h

/-- C6 counterexample: `for i in 1..10..0` does not reach execution at all —
`build_seq` already rejects the zero step while the line is parsed, with the
sequence error `SeqError(1, 10, 0)`, so no runtime forever-for error is
produced. -/
theorem claim_C6_counterexample :
    build_seq_int "1" "10" "0" = .error (.SeqError 1 10 0) := rfl

/-- C6 (amended): the zero step of `1..10..0` is rejected at parse time by
`build_seq` (`SeqError`), and for every integer sequence that `build_seq`
does accept the step is nonzero, so `exec_for`'s runtime forever-for branch
is unreachable for parsed integer sequences. -/
theorem claim_C6 :
    build_seq_int "1" "10" "0" = .error (.SeqError 1 10 0) ∧
    ∀ s e st : String, ∀ a b c : ℤ,
      build_seq_int s e st = .ok (.SInt a b c) →
      c ≠ 0 ∧ exec_for_int a b c ≠ .forever := by
  refine ⟨rfl, fun s e st a b c h => ?_⟩
  simp only [build_seq_int] at h
  rcases hs : rustParseI64 s with _ | istart
  · simp [hs] at h
  simp only [hs] at h
  rcases he : rustParseI64 e with _ | iend
  · simp [he] at h
  simp only [he] at h
  rcases hst : rustParseI64 st with _ | istep
  · simp [hst] at h
  simp only [hst] at h
  split_ifs at h with hguard
  simp only [Except.ok.injEq, Seq.SInt.injEq] at h
  obtain ⟨rfl, rfl, rfl⟩ := h
  push_neg at hguard
  refine ⟨hguard.1, ?_⟩
  simp only [exec_for_int]
  split_ifs with h1 h2
  · simp
  · exact absurd h2 hguard.1
  · simp

/-- C6 witness: `1..10..2` parses and enters the loop rather than raising
the forever-for error. -/
theorem claim_C6_witness : exec_for_int 1 10 2 ≠ .forever :=
  (claim_C6.2 "1" "10" "2" 1 10 2 rfl).2

/-- C7 counterexample: the built-in named `fields` splits on whitespace, so
with the four arguments of the claim it returns
`List(["abc", "ahi", "daf"])`, not `List(["f\t", "bc d"])`. -/
theorem claim_C7_counterexample :
    run_func_pure "fields"
        [.Str "abc daf\tahi", .Str "a", .Int 2, .Str "1"] =
      some (.ok (.List ["abc", "ahi", "daf"])) ∧
    VarValue.List ["abc", "ahi", "daf"] ≠ VarValue.List ["f\t", "bc d"] := by
  exact ⟨rfl, by decide⟩

/-- C7 (amended): the result `List(["f\t", "bc d"])` for those four
arguments belongs to the separator-taking built-in (`fields_sep` and its
spellings), which treats `"a"` as the separator; the built-in named
`fields` treats `"a"` as a field index (coerced to 0) and returns
`List(["abc", "ahi", "daf"])`. -/
theorem claim_C7 :
    run_func_pure "fields_sep"
        [.Str "abc daf\tahi", .Str "a", .Int 2, .Str "1"] =
      some (.ok (.List ["f\t", "bc d"])) ∧
    run_func_pure "fields-sep"
        [.Str "abc daf\tahi", .Str "a", .Int 2, .Str "1"] =
      some (.ok (.List ["f\t", "bc d"])) ∧
    run_func_pure "fields"
        [.Str "abc daf\tahi", .Str "a", .Int 2, .Str "1"] =
      some (.ok (.List ["abc", "ahi", "daf"])) :=
  ⟨rfl, rfl, rfl⟩

/-- C10: expression evaluation of a backtick command maps every failure to
`Undefined` (spawn failure, and any unsuccessful exit — `exec_cmd` returns
an error for those), and every `Exec` value it produces carries exit code 0
and an end-trimmed stdout (or the non-UTF-8 placeholder). -/
theorem claim_C10 (cmdline : String) (out : SpawnOutcome) :
    (∀ e, out = .spawnErr e →
      (∃ err, exec_cmd cmdline out = .error err) ∧
      exec_op_exec cmdline out = .Undefined) ∧
    (∀ st, out = .exited false st →
      (∃ err, exec_cmd cmdline out = .error err) ∧
      exec_op_exec cmdline out = .Undefined) ∧
    (∀ er, exec_op_exec cmdline out = .Exec er →
      er.code = 0 ∧
      ((∃ s, out = .exited true (some s) ∧ er.stdout = rustTrimEnd s) ∨
        er.stdout = "[Non-UTF-8 Output]")) := by
  refine ⟨fun e he => ?_, fun st hst => ?_, fun er her => ?_⟩
  · subst he
    exact ⟨⟨_, rfl⟩, rfl⟩
  · subst hst
    exact ⟨⟨.ExecFailureError cmdline "exit code", rfl⟩, rfl⟩
  · rcases out with e | ⟨ok, stdout⟩
    · simp [exec_op_exec, exec_cmd] at her
    · rcases ok with _ | _
      · simp [exec_op_exec, exec_cmd] at her
      · rcases stdout with _ | s <;>
          simp_all [exec_op_exec, exec_cmd] <;> simp [← her]

/-- C10 witness: a failed exit yields `Undefined`; a successful exit with
stdout `"out  \n"` yields `Exec(0, "out")`. -/
theorem claim_C10_witness :
    exec_op_exec "cmd" (.exited false (some "x")) = .Undefined ∧
    exec_op_exec "cmd" (.exited true (some "out  \n")) = .Exec ⟨0, "out"⟩ :=
  ⟨((claim_C10 "cmd" (.exited false (some "x"))).2.1 (some "x") rfl).2, rfl⟩

/-- The accumulator loop of `process_feature` started at `true` yields
`Ok(true)` exactly when every predicate evaluates to `Ok(true)`. -/
theorem process_feature_go_true_iff (plat : Platform) (feats : List String) :
    ∀ preds : List FeatPred,
      process_feature_go plat feats true preds = .ok true ↔
        ∀ p ∈ preds, evalFeatPred plat feats p = .ok true := by
  intro preds
  induction preds with
  | nil => simp [process_feature_go]
  | cons p ps ih =>
    simp only [process_feature_go]
    cases h : evalFeatPred plat feats p with
    | error e => simp [h]
    | ok pass =>
      cases pass with
      | false => simp [h]
      | true => simpa [h] using ih

/-- C3 counterexample: with an empty user-feature list, a `feature`
predicate and its `!`-negation both evaluate to false — `check_feature_list`
returns early, before the negation is applied — so the negated predicate is
not the negation of the un-negated one. -/
theorem claim_C3_counterexample :
    process_feature testPlatform [] [⟨true, "feature", ["x"]⟩] = .ok false ∧
    process_feature testPlatform [] [⟨false, "feature", ["x"]⟩] = .ok false ∧
    ¬(check_feature_list [] ["x"] true = ! check_feature_list [] ["x"] false) := by
  exact ⟨rfl, rfl, by decide⟩

/-- C3 (amended): a whole guard passes iff every predicate passes
(left-to-right short-circuit AND); a `!` prefix inverts every platform
predicate (`check_feature_val`), and inverts a `feature`/`feat` predicate
whenever the user-feature list is non-empty — with an empty user-feature
list the predicate is false regardless of negation. -/
theorem claim_C3 (plat : Platform) (feats : List String)
    (preds : List FeatPred) :
    (process_feature plat feats preds = .ok true ↔
      ∀ p ∈ preds, evalFeatPred plat feats p = .ok true) ∧
    (∀ val vs, check_feature_val val vs true = ! check_feature_val val vs false) ∧
    (∀ vals vs, vals ≠ [] →
      check_feature_list vals vs true = ! check_feature_list vals vs false) ∧
    (∀ vs, check_feature_list [] vs true = false ∧
      check_feature_list [] vs false = false) := by
  refine ⟨process_feature_go_true_iff plat feats preds, ?_, ?_, ?_⟩
  · intro val vs
    simp [check_feature_val]
  · intro vals vs h
    simp [check_feature_list, h]
  · intro vs
    simp [check_feature_list]

/-- C3 witness: a passing one-predicate guard, and negation inverting a
`feature` predicate over the non-empty user-feature list `["x"]`. -/
theorem claim_C3_witness :
    process_feature testPlatform ["x"] [⟨false, "feat", ["X"]⟩] = .ok true ∧
    check_feature_list ["x"] ["y"] true = ! check_feature_list ["x"] ["y"] false :=
  ⟨(claim_C3 testPlatform ["x"] [⟨false, "feat", ["X"]⟩]).1.mpr
      (by intro p hp; simp only [List.mem_singleton] at hp; subst hp; rfl),
   (claim_C3 testPlatform [] []).2.2.1 ["x"] ["y"] (by decide)⟩

/-- `findChar` misses a character that does not occur in the list. -/
theorem findChar_eq_none {c : Char} :
    ∀ {l : List Char}, c ∉ l → findChar c l = none := by
  intro l
  induction l with
  | nil => intro; rfl
  | cons x xs ih =>
    intro h
    simp only [List.mem_cons, not_or] at h
    simp [findChar, Ne.symm h.1, ih h.2]

/-- C9: `interpolate` is the identity on every string containing neither
`$` nor `\`, for any variable environment and either value of `flat`. -/
theorem claim_C9 (env : String → VarValue) (flat : Bool) (s : String)
    (h1 : '$' ∉ s.data) (h2 : '\\' ∉ s.data) :
    interpolate env s flat = s := by
  obtain ⟨data⟩ := s
  simp only [interpolate]
  cases data with
  | nil => rfl
  | cons hd tl =>
    have e1 : findChar '$' (hd :: tl) = none := findChar_eq_none h1
    have e2 : findChar '\\' (hd :: tl) = none := findChar_eq_none h2
    show String.mk (interpolateGo env flat ((hd :: tl).length + 1) [] (hd :: tl)) =
      String.mk (hd :: tl)
    simp [interpolateGo, e1, e2]

/-- C9 witness: `interpolate` leaves `"hello world"` unchanged in both
modes. -/
theorem claim_C9_witness :
    interpolate (fun _ => .Undefined) "hello world" true = "hello world" ∧
    interpolate (fun _ => .Undefined) "hello world" false = "hello world" :=
  ⟨claim_C9 (fun _ => .Undefined) true "hello world" (by decide) (by decide),
   claim_C9 (fun _ => .Undefined) false "hello world" (by decide) (by decide)⟩

/-- On a stream with no `Feature` and no `Recipe` op, one `remove_dead_code`
step keeps the machine in `skip = None`, `pass = true`, and appends the op's
own opener/closer contribution to the retained stream. -/
theorem rdcStep_counts (st : RdcState) (o : OpItem)
    (hskip : st.skip = .None) (hpass : st.ds.pass = true)
    (hf : o.op.isFeatureOp = false) (hr : o.op.isRecipeOp = false) :
    (rdcStep st o).skip = .None ∧ (rdcStep st o).ds.pass = true ∧
    countClosers (rdcStep st o).op_list
      = countClosers st.op_list + (if o.op.isClose then 1 else 0) ∧
    countOpeners (rdcStep st o).op_list
      = countOpeners st.op_list + (if o.op.isOpener then 1 else 0) := by
  obtain ⟨op, line⟩ := o
  cases op <;>
    simp_all [rdcStep, rdcStep.rdcOpenStep, Op.isFeatureOp, Op.isRecipeOp,
      Op.isOpener, Op.isClose, countOpeners, countClosers, DeadState.new,
      List.countP_append, List.countP_cons]

/-- Folding `remove_dead_code` over a feature-free, recipe-free stream from
a non-skipping passing state adds exactly the stream's opener and closer
counts to the retained list. -/
theorem rdc_fold_counts :
    ∀ (ops : List OpItem) (st : RdcState),
      st.skip = .None → st.ds.pass = true →
      (∀ o ∈ ops, o.op.isFeatureOp = false ∧ o.op.isRecipeOp = false) →
      countClosers (ops.foldl rdcStep st).op_list
        = countClosers st.op_list + countClosers ops ∧
      countOpeners (ops.foldl rdcStep st).op_list
        = countOpeners st.op_list + countOpeners ops := by
  intro ops
  induction ops with
  | nil => intro st _ _ _; simp [countClosers, countOpeners]
  | cons o os ih =>
    intro st hskip hpass hall
    have ho := hall o (by simp)
    obtain ⟨h1, h2, h3, h4⟩ := rdcStep_counts st o hskip hpass ho.1 ho.2
    have hrec := ih (rdcStep st o) h1 h2 (fun x hx => hall x (by simp [hx]))
    simp only [List.foldl_cons]
    have hc : countClosers (o :: os)
        = (if o.op.isClose then 1 else 0) + countClosers os := by
      simp [countClosers, List.countP_cons, Nat.add_comm]
    have hop : countOpeners (o :: os)
        = (if o.op.isOpener then 1 else 0) + countOpeners os := by
      simp [countOpeners, List.countP_cons, Nat.add_comm]
    refine ⟨?_, ?_⟩
    · rw [hrec.1, h3, hc]; omega
    · rw [hrec.2, h4, hop]; omega

/-- C2 counterexample: the 4-line script `if 1` / `echo ok` /
`#[feature(x)]` (a failing guard) / `end` loads successfully, but
`remove_dead_code` drops the guarded `StmtClose` while keeping its `If`:
the retained stream has 1 opener and 0 closers although the input stream
was balanced. -/
theorem claim_C2_counterexample :
    remove_dead_code
        [⟨.If [.OInt 1], 0⟩, ⟨.Shell 0 "echo ok", 1⟩,
         ⟨.Feature false "feature(x)", 2⟩, ⟨.StmtClose, 3⟩] =
      [⟨.If [.OInt 1], 0⟩, ⟨.Shell 0 "echo ok", 1⟩] ∧
    countOpeners (remove_dead_code
        [⟨.If [.OInt 1], 0⟩, ⟨.Shell 0 "echo ok", 1⟩,
         ⟨.Feature false "feature(x)", 2⟩, ⟨.StmtClose, 3⟩]) = 1 ∧
    countClosers (remove_dead_code
        [⟨.If [.OInt 1], 0⟩, ⟨.Shell 0 "echo ok", 1⟩,
         ⟨.Feature false "feature(x)", 2⟩, ⟨.StmtClose, 3⟩]) = 0 ∧
    countOpeners
        [⟨.If [.OInt 1], 0⟩, ⟨.Shell 0 "echo ok", 1⟩,
         ⟨.Feature false "feature(x)", 2⟩, ⟨.StmtClose, 3⟩] = 1 ∧
    countClosers
        [⟨.If [.OInt 1], 0⟩, ⟨.Shell 0 "echo ok", 1⟩,
         ⟨.Feature false "feature(x)", 2⟩, ⟨.StmtClose, 3⟩] = 1 :=
  ⟨rfl, rfl, rfl, rfl, rfl⟩

/-- C2 (amended): `remove_dead_code` preserves the `StmtClose` and
`If`+`While`+`For` counts exactly on every stream with no `Feature` and no
`Recipe` ops, so for those streams the retained counts are equal iff the
input counts were; a failing feature guard immediately before an `end`
breaks the equality (the dropped closer of the counterexample), and stray
closers are retained, surfacing only as runtime errors. -/
theorem claim_C2 (ops : List OpItem)
    (h : ∀ o ∈ ops, o.op.isFeatureOp = false ∧ o.op.isRecipeOp = false) :
    countClosers (remove_dead_code ops) = countClosers ops ∧
    countOpeners (remove_dead_code ops) = countOpeners ops := by
  have hmain := rdc_fold_counts ops ⟨.None, DeadState.new, [], 0, []⟩ rfl rfl h
  simpa [remove_dead_code, countClosers, countOpeners] using hmain

/-- C2 witness: on the balanced feature-free stream `if …` / `end` the
retained stream keeps 1 opener and 1 closer. -/
theorem claim_C2_witness :
    countClosers (remove_dead_code [⟨.If [.OInt 1], 0⟩, ⟨.StmtClose, 1⟩]) = 1 ∧
    countOpeners (remove_dead_code [⟨.If [.OInt 1], 0⟩, ⟨.StmtClose, 1⟩]) = 1 := by
  have h := claim_C2 [⟨.If [.OInt 1], 0⟩, ⟨.StmtClose, 1⟩]
    (by intro o ho; simp only [List.mem_cons, List.mem_singleton] at ho
        rcases ho with rfl | rfl | h'
        · exact ⟨rfl, rfl⟩
        · exact ⟨rfl, rfl⟩
        · cases h')
  exact ⟨by rw [h.1]; rfl, by rw [h.2]; rfl⟩

/-- `find_recipe` returns a recipe with the requested name. -/
theorem find_recipe_name {rs : List RecipeDecl} {d : String} {r : RecipeDecl}
    (h : find_recipe rs d = .ok r) : r.name = d := by
  unfold find_recipe at h
  cases hf : rs.find? (fun r => r.name = d) with
  | none => rw [hf] at h; cases h
  | some r2 =>
    rw [hf] at h
    cases h
    simpa using List.find?_some hf

/-- If `push_recipe` succeeds on a recipe (looked up by its own name), then
no dependency path leads from that recipe back to itself or to any name in
the ancestor chain. -/
theorem push_recipe_ok_no_cycle (rs : List RecipeDecl) :
    ∀ (fuel : Nat) (rcp : RecipeDecl) (found : Option (List RecipeItem))
      (parent : Option (List String)) (vc : List RecipeItem),
      find_recipe rs rcp.name = .ok rcp →
      push_recipe rs fuel rcp found parent = .ok vc →
      ∀ x, (x = rcp.name ∨ x ∈ parentList parent) → ¬ Reaches rs rcp.name x := by
  intro fuel
  induction fuel with
  | zero =>
    intro rcp found parent vc _ hpush
    cases hpush
  | succ fuel ih =>
    have hQ : ∀ (rcp : RecipeDecl) (found : Option (List RecipeItem))
        (parent : Option (List String)) (ds : List String)
        (vc0 : List RecipeItem) (parents : List String) (vc : List RecipeItem),
        rcp.name ∉ ds →
        (∀ y ∈ parents, y = rcp.name ∨ y ∈ parentList parent) →
        (∀ y ∈ parentList parent, y ∈ parents) →
        push_deps (push_recipe rs fuel) rs rcp found parent ds vc0 parents = .ok vc →
        ∀ d ∈ ds, ∀ x, (x = rcp.name ∨ x ∈ parentList parent) →
          ¬ (d = x ∨ Reaches rs d x) := by
      intro rcp found parent ds
      induction ds with
      | nil =>
        intro vc0 parents vc _ _ _ _ d hd
        exact absurd hd (by simp)
      | cons d0 ds ih2 =>
        intro vc0 parents vc hnotin hpar hsub hpush d hd x hx hreach
        simp only [push_deps] at hpush
        split at hpush
        · cases hpush
        split at hpush
        · cases hpush
        next hc1 hc2 =>
        split at hpush
        next e heq => cases hpush
        next next heq =>
        split at hpush
        next e heq2 => cases hpush
        next slist hpr =>
        have hfind : find_recipe rs d0 = .ok next := heq
        have hd0parent : d0 ∉ parentList parent := by
          intro hmem
          apply hc1
          cases parent with
          | none => exact absurd hmem (by simp [parentList])
          | some ps =>
            simp only [List.any_eq_true]
            exact ⟨d0, by simpa [parentList] using hmem, by simp⟩
        have hnextname : next.name = d0 := find_recipe_name hfind
        rcases List.mem_cons.mp hd with rfl | hdtail
        · -- d is the head dependency d0
          rcases hreach with rfl | hr
          · rcases hx with rfl | hxp
            · exact hnotin (by simp)
            · exact hd0parent hxp
          · have hfind2 : find_recipe rs next.name = .ok next := by
              rw [hnextname]; exact hfind
            have hx2 : x = next.name ∨ x ∈ parentList (some (parents ++ [rcp.name])) := by
              rcases hx with rfl | hxp
              · right; simp [parentList]
              · right; simp [parentList, hsub x hxp]
            have := ih next (some vc0) (some (parents ++ [rcp.name])) slist hfind2 hpr x hx2
            rw [hnextname] at this
            exact this hr
        · -- d is in the tail
          have hpar2 : ∀ y ∈ parents ++ [rcp.name],
              y = rcp.name ∨ y ∈ parentList parent := by
            intro y hy
            rcases List.mem_append.mp hy with hy1 | hy2
            · exact hpar y hy1
            · left; simpa using hy2
          have hsub2 : ∀ y ∈ parentList parent, y ∈ parents ++ [rcp.name] := by
            intro y hy
            exact List.mem_append.mpr (Or.inl (hsub y hy))
          have hnotin2 : rcp.name ∉ ds := by
            intro hh
            exact hnotin (List.mem_cons_of_mem _ hh)
          exact ih2 (vc0 ++ slist) (parents ++ [rcp.name]) vc
            hnotin2 hpar2 hsub2 hpush d hdtail x hx hreach
    intro rcp found parent vc hfind hpush
    simp only [push_recipe] at hpush
    by_cases hg :
        (([] : List RecipeItem).any (fun s => s.name = rcp.name) ||
          rcp.deps.any (fun d => d = rcp.name)) = true
    · rw [if_pos hg] at hpush
      cases hpush
    rw [if_neg hg] at hpush
    cases hpd : push_deps (push_recipe rs fuel) rs rcp found parent rcp.deps []
        (parentList parent) with
    | error e => rw [hpd] at hpush; cases hpush
    | ok vc2 =>
    have hnotin : rcp.name ∉ rcp.deps := by
      intro hmem
      apply hg
      simp only [List.any_nil, Bool.false_or, List.any_eq_true]
      exact ⟨rcp.name, hmem, by simp⟩
    have hq := hQ rcp found parent rcp.deps [] (parentList parent) vc2
      hnotin (fun y hy => Or.inr hy) (fun y hy => hy) hpd
    intro x hx hreach
    cases hreach with
    | single hstep =>
      obtain ⟨r, hfr, hmem⟩ := hstep
      rw [hfind] at hfr
      cases hfr
      exact hq x hmem x hx (Or.inl rfl)
    | head hstep hrest =>
      obtain ⟨r, hfr, hmem⟩ := hstep
      rw [hfind] at hfr
      cases hfr
      exact hq _ hmem x hx (Or.inr hrest)

/-- C8 counterexample: recipe `a` depends on itself transitively
(`a → b → a`) but, because its first dependency `x` does not resolve,
`push_recipe` fails with `RecipeNotFoundError("x")`, not with
`RecipeRecursionError`. -/
theorem claim_C8_counterexample :
    Reaches [⟨"a", 0, [], ["x", "b"]⟩, ⟨"b", 0, [], ["a"]⟩] "a" "a" ∧
    push_recipe [⟨"a", 0, [], ["x", "b"]⟩, ⟨"b", 0, [], ["a"]⟩] 5
        ⟨"a", 0, [], ["x", "b"]⟩ none none
      = .error (.RecipeNotFoundError "x") := by
  constructor
  · exact @Reaches.head _ "a" "b" "a" ⟨⟨"a", 0, [], ["x", "b"]⟩, rfl, by simp⟩
      (@Reaches.single _ "b" "a" ⟨⟨"b", 0, [], ["a"]⟩, rfl, by simp⟩)
  · rfl

/-- C8 (amended): for the two-recipe script `a: b` / `b: a`, resolving `a`
fails with `RecipeRecursionError` naming `a`; and in general, whenever a
recipe depends on itself directly or transitively, `push_recipe` fails —
it never produces an execution list (the error is `RecipeRecursionError`
when every dependency it examines resolves, but can be
`RecipeNotFoundError` when one does not). -/
theorem claim_C8 :
    push_recipe [⟨"a", 0, [], ["b"]⟩, ⟨"b", 0, [], ["a"]⟩] 3
        ⟨"a", 0, [], ["b"]⟩ none none
      = .error (.RecipeRecursionError "a") ∧
    ∀ (rs : List RecipeDecl) (fuel : Nat) (rcp : RecipeDecl)
      (found : Option (List RecipeItem)) (parent : Option (List String))
      (vc : List RecipeItem),
      find_recipe rs rcp.name = .ok rcp →
      Reaches rs rcp.name rcp.name →
      push_recipe rs fuel rcp found parent ≠ .ok vc := by
  refine ⟨rfl, fun rs fuel rcp found parent vc hfind hcyc hpush => ?_⟩
  exact push_recipe_ok_no_cycle rs fuel rcp found parent vc hfind hpush
    rcp.name (Or.inl rfl) hcyc

/-- C8 witness: the cyclic two-recipe script never yields an execution
list. -/
theorem claim_C8_witness :
    push_recipe [⟨"a", 0, [], ["b"]⟩, ⟨"b", 0, [], ["a"]⟩] 3
        ⟨"a", 0, [], ["b"]⟩ none none ≠ .ok [] :=
  claim_C8.2 [⟨"a", 0, [], ["b"]⟩, ⟨"b", 0, [], ["a"]⟩] 3
    ⟨"a", 0, [], ["b"]⟩ none none [] rfl
    (@Reaches.head _ "a" "b" "a" ⟨⟨"a", 0, [], ["b"]⟩, rfl, by simp⟩
      (@Reaches.single _ "b" "a" ⟨⟨"b", 0, [], ["a"]⟩, rfl, by simp⟩))

end Haku
